import Mathlib

/-!
A verification development for the MongoLite document database
(crates mongolite-core and ironbase-core).  The definitions below are a
shallow embedding of the Rust sources: pure functions are translated to
Lean functions, mutation of a structure (Rust methods on `&mut self`)
becomes a function returning the updated structure, `Result<T>` becomes
`Except` or a pair carrying an optional error, and machine integers are
modelled as `Nat`/`Int` (with the relevant bounds stated as hypotheses
where overflow could matter).  Each definition names the source item it
embeds.
-/

set_option maxRecDepth 1000000

namespace MongoLite

/-! ## Generic helpers (Rust standard-library behaviour used by the sources) -/

/-- Three-way comparison of a linear order, mirroring Rust's derived
`Ord::cmp` on primitive types (`i64`, `bool`, `u64`, `char`, rationals
standing for non-NaN doubles). -/
def cmp3 {α : Type _} [LinearOrder α] (a b : α) : Ordering :=
  if a < b then .lt else if b < a then .gt else .eq

/-- Rust `<[T]>::binary_search_by` (the exact loop from the standard
library: `mid = left + (right - left) / 2`, comparator result `Less`
moves `left`, `Greater` moves `right`, `Equal` returns `Ok(mid)`), on a
list.  `Sum.inl pos` is `Ok(pos)`, `Sum.inr pos` is `Err(pos)`.  The
recursion is fuelled by the interval width; `xs.get? mid` never misses
because `mid < right ≤ xs.length`. -/
def rustBinSearchGo {α : Type _} (xs : List α) (f : α → Ordering) :
    Nat → Nat → Nat → Sum Nat Nat
  | 0, l, _ => .inr l
  | fuel + 1, l, r =>
    if l < r then
      let mid := l + (r - l) / 2
      match xs.get? mid with
      | none => .inr l
      | some x =>
        match f x with
        | .lt => rustBinSearchGo xs f fuel (mid + 1) r
        | .gt => rustBinSearchGo xs f fuel l mid
        | .eq => .inl mid
    else .inr l

/-- Rust `<[T]>::binary_search(&key)`: the comparator compares the probed
element against the key. -/
def rustBinSearch {α : Type _} (xs : List α) (cmpKey : α → Ordering) : Sum Nat Nat :=
  rustBinSearchGo xs cmpKey (xs.length + 1) 0 xs.length

/-- `Result::unwrap_or_else(|pos| pos)` applied to a binary-search result:
both `Ok` and `Err` yield the carried position. -/
def searchPos (r : Sum Nat Nat) : Nat :=
  match r with
  | .inl p => p
  | .inr p => p

/-- Little-endian encoding of `n` into `k` bytes (Rust `to_le_bytes`). -/
def toLe : Nat → Nat → List Nat
  | 0, _ => []
  | k + 1, n => n % 256 :: toLe k (n / 256)

/-- Little-endian decoding of a byte list (Rust `from_le_bytes`). -/
def fromLe : List Nat → Nat
  | [] => 0
  | b :: bs => b + 256 * fromLe bs

/-- Flip bit `j` of the byte at index `i` (out-of-range indices leave the
list unchanged); models a single-bit corruption of a byte buffer. -/
def flipBit (bs : List Nat) (i j : Nat) : List Nat :=
  bs.set i ((bs.getD i 0) ^^^ 2 ^ j)

/-! ## CRC32 (the `crc32fast` crate: standard CRC-32/ISO-HDLC,
reflected polynomial `0xEDB88320`, initial value and final xor
`0xFFFFFFFF`; this is the checksum used by `WALEntry::compute_checksum`
in `ironbase-core/src/wal.rs`). -/

/-- One bit-round of the reflected CRC32: shift right, conditionally xor
the reflected polynomial. -/
def crcRound (c : Nat) : Nat :=
  if c % 2 = 1 then (c / 2) ^^^ 0xEDB88320 else c / 2

/-- Iterate `crcRound`. -/
def crcRounds : Nat → Nat → Nat
  | 0, c => c
  | k + 1, c => crcRounds k (crcRound c)

/-- Absorb one input byte into the CRC state. -/
def crcUpdate (c b : Nat) : Nat := crcRounds 8 (c ^^^ b)

/-- CRC32 of a byte list. -/
def crc32 (bs : List Nat) : Nat := (bs.foldl crcUpdate 0xFFFFFFFF) ^^^ 0xFFFFFFFF

/-! ## WAL frames (`ironbase-core/src/wal.rs`) -/

/-- `WALEntryType` from `wal.rs`: the five frame types with their on-disk
tags. -/
inductive WALEntryType : Type
  | begin
  | operation
  | commit
  | abort
  | indexChange
  deriving DecidableEq, Repr

/-- The `#[repr(u8)]` tag of an entry type (`Begin = 0x01`, …,
`IndexChange = 0x05`). -/
def WALEntryType.toU8 : WALEntryType → Nat
  | .begin => 1
  | .operation => 2
  | .commit => 3
  | .abort => 4
  | .indexChange => 5

/-- `WALEntryType::from_u8`: any byte other than 1..=5 is
`WALCorruption` (modelled as `none`). -/
def WALEntryType.fromU8 (b : Nat) : Option WALEntryType :=
  if b = 1 then some .begin
  else if b = 2 then some .operation
  else if b = 3 then some .commit
  else if b = 4 then some .abort
  else if b = 5 then some .indexChange
  else none

/-- `WALEntry` from `wal.rs`: transaction id (`u64`), entry type, payload
bytes, and stored checksum. -/
structure WALEntry : Type where
  transactionId : Nat
  entryType : WALEntryType
  data : List Nat
  checksum : Nat
  deriving DecidableEq, Repr

/-- `WALEntry::compute_checksum`: CRC32 over
`tx_id_le ++ [type] ++ len_le ++ data`. -/
def WALEntry.computeChecksum (e : WALEntry) : Nat :=
  crc32 (toLe 8 e.transactionId ++ [e.entryType.toU8] ++ toLe 4 e.data.length ++ e.data)

/-- `WALEntry::new`: build an entry and fill in its checksum. -/
def WALEntry.new (tx : Nat) (ty : WALEntryType) (data : List Nat) : WALEntry :=
  let e : WALEntry := ⟨tx, ty, data, 0⟩
  { e with checksum := e.computeChecksum }

/-- `WALEntry::serialize`: `tx_id(8 LE) ++ type(1) ++ len(4 LE) ++ data
++ checksum(4 LE)`. -/
def WALEntry.serialize (e : WALEntry) : List Nat :=
  toLe 8 e.transactionId ++ [e.entryType.toU8] ++ toLe 4 e.data.length ++
    e.data ++ toLe 4 e.checksum

/-- Errors surfaced by WAL parsing (`MongoLiteError::WALCorruption`). -/
inductive WalErr : Type
  | walCorruption
  deriving DecidableEq, Repr

deriving instance DecidableEq for Except

/-- `WALEntry::deserialize` from `wal.rs`: length check (≥ 17), parse
tx id at 0, type byte at 8, data length at 9, bounds check
`len < 13 + data_len + 4`, slice the payload and checksum, then verify
the recomputed CRC against the stored one. -/
def WALEntry.deserialize (bytes : List Nat) : Except WalErr WALEntry :=
  if bytes.length < 17 then .error .walCorruption
  else
    match WALEntryType.fromU8 (bytes.getD 8 0) with
    | none => .error .walCorruption
    | some ty =>
      let tx := fromLe (bytes.take 8)
      let dataLen := fromLe ((bytes.drop 9).take 4)
      if bytes.length < 13 + dataLen + 4 then .error .walCorruption
      else
        let entryData := (bytes.drop 13).take dataLen
        let ck := fromLe ((bytes.drop (13 + dataLen)).take 4)
        let e : WALEntry := ⟨tx, ty, entryData, ck⟩
        if e.computeChecksum = ck then .ok e else .error .walCorruption

/-! ## Index keys and their orders

`ironbase-core/src/index.rs` and `mongolite-core/src/index.rs` define the
same `IndexKey` with a hand-written `Ord`; `ironbase-core/src/transaction.rs`
defines a second `IndexKey` with a derived `Ord` and a different
`OrderedFloat`.  Doubles are modelled by `F64`: a canonical NaN, the two
infinities, and finite values as rationals (which conflates `0.0` and
`-0.0`, irrelevant for every comparison below since `partial_cmp` already
treats them as equal). -/

/-- Model of `f64` for ordering purposes. -/
inductive F64 : Type
  | nan
  | neginf
  | val (q : ℚ)
  | posinf
  deriving DecidableEq, Repr

/-- `f64::is_nan`. -/
def F64.isNan : F64 → Bool
  | .nan => true
  | _ => false

/-- `f64::partial_cmp`: `None` when either side is NaN, otherwise the
IEEE order on `-∞ < finite < +∞`. -/
def f64PartialCmp : F64 → F64 → Option Ordering
  | .nan, _ => none
  | _, .nan => none
  | .neginf, .neginf => some .eq
  | .neginf, _ => some .lt
  | _, .neginf => some .gt
  | .posinf, .posinf => some .eq
  | .posinf, _ => some .gt
  | _, .posinf => some .lt
  | .val a, .val b => some (cmp3 a b)

/-- `Ord for OrderedFloat` in `index.rs` (both crates): NaN equals NaN
and is greater than every non-NaN; otherwise `partial_cmp` (total on
non-NaN inputs, `unwrap_or(Equal)` is never taken there). -/
def ofCmp (a b : F64) : Ordering :=
  match a.isNan, b.isNan with
  | true, true => .eq
  | true, false => .gt
  | false, true => .lt
  | false, false => (f64PartialCmp a b).getD .eq

/-- `IndexKey` from `index.rs` (both crates), declaration order
`Null, Bool, Int, Float, String`.  Rust `String` ordering is
lexicographic on bytes, which for UTF-8 coincides with lexicographic
order on unicode scalar values, so the payload is a `List Char`. -/
inductive IndexKey : Type
  | null
  | bool (b : Bool)
  | int (i : ℤ)
  | float (f : F64)
  | str (s : List Char)
  deriving DecidableEq, Repr

/-- Lexicographic comparison of char lists: Rust `Ord for String`. -/
def lexCmp : List Char → List Char → Ordering
  | [], [] => .eq
  | [], _ :: _ => .lt
  | _ :: _, [] => .gt
  | a :: as', b :: bs' =>
    match cmp3 a b with
    | .eq => lexCmp as' bs'
    | o => o

/-- `Ord for IndexKey` in `index.rs` (both crates): the hand-written
match with tag order `Null < Bool < Int < Float < String` and payload
comparison inside a tag. -/
def IndexKey.cmp : IndexKey → IndexKey → Ordering
  | .null, .null => .eq
  | .null, _ => .lt
  | _, .null => .gt
  | .bool a, .bool b => cmp3 a b
  | .bool _, _ => .lt
  | _, .bool _ => .gt
  | .int a, .int b => cmp3 a b
  | .int _, _ => .lt
  | _, .int _ => .gt
  | .float a, .float b => ofCmp a b
  | .float _, _ => .lt
  | _, .float _ => .gt
  | .str a, .str b => lexCmp a b

/-- Strict "less than" induced by `IndexKey.cmp` (Rust `<` via `Ord`). -/
def IndexKey.lt (a b : IndexKey) : Bool := a.cmp b = Ordering.lt

/-- Strict "greater than" induced by `IndexKey.cmp`. -/
def IndexKey.gtb (a b : IndexKey) : Bool := a.cmp b = Ordering.gt

/-- Rust `PartialEq` for `IndexKey` (derived; `OrderedFloat` compares
`to_bits`, which on the canonical-NaN model is structural equality). -/
def IndexKey.eqb (a b : IndexKey) : Bool := a = b

/-- `Ord for OrderedFloat` in `transaction.rs`:
`partial_cmp(..).unwrap_or(Equal)`, so a NaN compares `Equal` to
everything. -/
def txOfCmp (a b : F64) : Ordering := (f64PartialCmp a b).getD .eq

/-- `IndexKey` from `transaction.rs`, declaration order
`Int, String, Float, Bool, Null` (this is the type carried in
transaction buffers and WAL index-change payloads). -/
inductive TxIndexKey : Type
  | int (i : ℤ)
  | str (s : List Char)
  | float (f : F64)
  | bool (b : Bool)
  | null
  deriving DecidableEq, Repr

/-- The variant rank used by Rust's derived `Ord` on `transaction.rs`'s
`IndexKey`: declaration order. -/
def TxIndexKey.rank : TxIndexKey → Nat
  | .int _ => 0
  | .str _ => 1
  | .float _ => 2
  | .bool _ => 3
  | .null => 4

/-- Derived `Ord` for `transaction.rs`'s `IndexKey`: compare variant
ranks in declaration order, then payloads (with `transaction.rs`'s
`OrderedFloat` order for floats). -/
def TxIndexKey.cmp (a b : TxIndexKey) : Ordering :=
  match a, b with
  | .int x, .int y => cmp3 x y
  | .str x, .str y => lexCmp x y
  | .float x, .float y => txOfCmp x y
  | .bool x, .bool y => cmp3 x y
  | .null, .null => .eq
  | _, _ => cmp3 a.rank b.rank

/-! ## Document ids (`mongolite-core/src/document.rs`) -/

/-- `DocumentId`: `Int(i64)`, `String`, or `ObjectId` (a string). -/
inductive DocumentId : Type
  | int (i : ℤ)
  | str (s : List Char)
  | objectId (s : List Char)
  deriving DecidableEq, Repr

/-- `DocumentId::new_auto`: `Int(last_id + 1)`. -/
def DocumentId.newAuto (lastId : Nat) : DocumentId := .int (lastId + 1)

/-! ## The full B+ tree (`mongolite-core/src/btree.rs`, `BPlusTreeFull`)

`BTREE_ORDER = 32`, `MAX_KEYS = 31`. -/

/-- `MAX_KEYS` from `btree.rs`. -/
def MAX_KEYS : Nat := 31

/-- `Node` from `btree.rs`: in-memory leaf (parallel `keys`/`values`) or
internal node (separator `keys` and owned `children`). -/
inductive BNode : Type
  | leaf (keys : List IndexKey) (values : List DocumentId)
  | internal (keys : List IndexKey) (children : List BNode)
  deriving Repr

/-- `IndexMetadata` as used by `BPlusTreeFull` (name, field, unique,
sparse, num_keys, tree_height). -/
structure BMeta : Type where
  name : List Char
  field : List Char
  unique : Bool
  sparse : Bool
  numKeys : Nat
  treeHeight : Nat
  deriving Repr

/-- `BPlusTreeFull`. -/
structure BPlusTreeFull : Type where
  root : BNode
  metadata : BMeta
  deriving Repr

/-- `BPlusTreeFull::new`: an empty leaf root, `num_keys = 0`,
`tree_height = 1`. -/
def BPlusTreeFull.new (name field : List Char) (unique : Bool) : BPlusTreeFull :=
  ⟨.leaf [] [],
    { name := name, field := field, unique := unique, sparse := false,
      numKeys := 0, treeHeight := 1 }⟩

/-- `BPlusTreeFull::search_in_node`: in an internal node an exact
separator hit descends right (`Ok(pos) → pos + 1`); in a leaf a
binary-search hit returns the parallel value.  The recursion is fuelled
by the tree height (the source maintains `tree_height` exactly, so the
fuel is never exhausted on trees built by the API). -/
def searchInNode : Nat → BNode → IndexKey → Option DocumentId
  | 0, _, _ => none
  | fuel + 1, n, key =>
    match n with
    | .internal keys children =>
      let idx :=
        match rustBinSearch keys (fun k => k.cmp key) with
        | .inl pos => pos + 1
        | .inr pos => pos
      match children.get? idx with
      | some c => searchInNode fuel c key
      | none => none
    | .leaf keys values =>
      match rustBinSearch keys (fun k => k.cmp key) with
      | .inl idx => values.get? idx
      | .inr _ => none

/-- `BPlusTreeFull::search`. -/
def BPlusTreeFull.search (t : BPlusTreeFull) (key : IndexKey) : Option DocumentId :=
  searchInNode (t.metadata.treeHeight + 1) t.root key

/-- `BPlusTreeFull::insert_into_node`: insert at the binary-search
position in a leaf, split at `> MAX_KEYS` (middle key moves up; for a
leaf the first right key is copied up, for an internal node the middle
key is removed and pushed up).  Height-fuelled like `searchInNode`. -/
def insertIntoNode : Nat → BNode → IndexKey → DocumentId → BNode × Option (IndexKey × BNode)
  | 0, n, _, _ => (n, none)
  | fuel + 1, n, key, value =>
    match n with
    | .leaf keys values =>
      let pos := searchPos (rustBinSearch keys (fun k => k.cmp key))
      let keys := keys.insertIdx pos key
      let values := values.insertIdx pos value
      if keys.length ≤ MAX_KEYS then (.leaf keys values, none)
      else
        let mid := keys.length / 2
        let rightKeys := keys.drop mid
        let rightValues := values.drop mid
        let splitKey := rightKeys.headD .null
        (.leaf (keys.take mid) (values.take mid),
          some (splitKey, .leaf rightKeys rightValues))
    | .internal keys children =>
      let idx :=
        match rustBinSearch keys (fun k => k.cmp key) with
        | .inl pos => pos + 1
        | .inr pos => pos
      match children.get? idx with
      | none => (.internal keys children, none)
      | some child =>
        let childrenRemoved := children.eraseIdx idx
        let (newChild, splitOpt) := insertIntoNode fuel child key value
        let children := childrenRemoved.insertIdx idx newChild
        match splitOpt with
        | none => (.internal keys children, none)
        | some (sk, sr) =>
          let keys := keys.insertIdx idx sk
          let children := children.insertIdx (idx + 1) sr
          if keys.length ≤ MAX_KEYS then (.internal keys children, none)
          else
            let mid := keys.length / 2
            let rightChildren := children.drop (mid + 1)
            let midKey := (keys.get? mid).getD .null
            let keysNoMid := keys.eraseIdx mid
            let rightKeys := keysNoMid.drop mid
            (.internal (keysNoMid.take mid) (children.take (mid + 1)),
              some (midKey, .internal rightKeys rightChildren))

/-- Errors surfaced by the index engine (`MongoLiteError::IndexError`). -/
inductive IdxErr : Type
  | duplicateKey
  | indexExists
  deriving DecidableEq, Repr

/-- `BPlusTreeFull::insert`: unique-constraint check via `search` before
any mutation (the tree is returned unchanged together with the error),
then insert with split propagation; a root split adds a new internal
root and increments the height; `num_keys` is incremented. -/
def BPlusTreeFull.insert (t : BPlusTreeFull) (key : IndexKey) (docId : DocumentId) :
    BPlusTreeFull × Option IdxErr :=
  if t.metadata.unique && (t.search key).isSome then
    (t, some .duplicateKey)
  else
    let (node, splitOpt) := insertIntoNode (t.metadata.treeHeight + 1) t.root key docId
    let t :=
      match splitOpt with
      | none => { t with root := node }
      | some (sk, sr) =>
        { t with root := .internal [sk] [node, sr],
                 metadata := { t.metadata with treeHeight := t.metadata.treeHeight + 1 } }
    ({ t with metadata := { t.metadata with numKeys := t.metadata.numKeys + 1 } }, none)

/-- Leaf part of `BPlusTreeFull::range_scan_node`: `continue` on keys
below the start bound (or equal with exclusive start), `break` on keys
above the end bound (or equal with exclusive end), collect the rest in
order. -/
def leafRangeScan (startK endK : IndexKey) (incS incE : Bool) :
    List IndexKey → List DocumentId → List DocumentId
  | [], _ => []
  | _ :: _, [] => []
  | k :: ks, v :: vs =>
    if k.lt startK || (!incS && k.eqb startK) then leafRangeScan startK endK incS incE ks vs
    else if k.gtb endK || (!incE && k.eqb endK) then []
    else v :: leafRangeScan startK endK incS incE ks vs

/-- The child-iteration of `BPlusTreeFull::range_scan_node` on an
internal node (`for i in start_idx..children.len()`), given the already
computed scan result of every child: stop early when the separator left
of child `i` already exceeds the end bound, otherwise append child `i`'s
results and continue.  (Computing every child's scan first and joining
here yields the same output as the source's in-loop recursion; the early
break only truncates the concatenation.) -/
def scanJoin (keys : List IndexKey) (endK : IndexKey) (scans : List (List DocumentId)) :
    Nat → Nat → List DocumentId
  | _, 0 => []
  | i, fuel + 1 =>
    match scans.get? i with
    | none => []
    | some r =>
      if i > 0 && ((keys.get? (i - 1)).map (fun k => k.gtb endK)).getD false then []
      else r ++ scanJoin keys endK scans (i + 1) fuel

/-- `BPlusTreeFull::range_scan_node`: leaf scan with bounds, or descend
from the child picked by the separator binary search and walk the
children left to right with the early-stop condition.  Height-fuelled
like `searchInNode`. -/
def rangeScanNode : Nat → BNode → IndexKey → IndexKey → Bool → Bool → List DocumentId
  | 0, _, _, _, _, _ => []
  | fuel + 1, n, startK, endK, incS, incE =>
    match n with
    | .leaf keys values =>
      leafRangeScan startK endK incS incE keys values
    | .internal keys children =>
      let startIdx :=
        match rustBinSearch keys (fun k => k.cmp startK) with
        | .inl pos => pos + 1
        | .inr pos => pos
      let scans := children.map (fun c => rangeScanNode fuel c startK endK incS incE)
      scanJoin keys endK scans startIdx children.length

/-- `BPlusTreeFull::range_scan`. -/
def BPlusTreeFull.rangeScan (t : BPlusTreeFull) (startK endK : IndexKey)
    (incS incE : Bool) : List DocumentId :=
  rangeScanNode (t.metadata.treeHeight + 1) t.root startK endK incS incE

/-- Fold used below: insert a list of `(key, id)` pairs one by one,
ignoring errors (all inserts in a non-unique tree succeed). -/
def BPlusTreeFull.insertAll (t : BPlusTreeFull) : List (IndexKey × DocumentId) → BPlusTreeFull
  | [] => t
  | (k, d) :: rest => ((t.insert k d).1).insertAll rest

/-! ## The simple B+ tree (`ironbase-core/src/index.rs`, `BPlusTree`)

This variant keeps child/sibling links as file offsets; its in-memory
`search` on an internal root returns `None` (a marked TODO in the
source), and `insert`/`delete`/`range_scan` only mutate or read a leaf
root. -/

/-- `BTreeNode` from `ironbase-core/src/index.rs`. -/
inductive IBNode : Type
  | internal (keys : List IndexKey) (childrenOffsets : List Nat)
  | leaf (keys : List IndexKey) (documentIds : List DocumentId) (nextLeafOffset : Nat)
  deriving Repr

/-- `IndexMetadata` from `ironbase-core/src/index.rs` (has a
`root_offset` in addition to the fields of `BMeta`). -/
structure IBMeta : Type where
  name : List Char
  field : List Char
  unique : Bool
  sparse : Bool
  numKeys : Nat
  treeHeight : Nat
  rootOffset : Nat
  deriving Repr

/-- `BPlusTree` from `ironbase-core/src/index.rs`. -/
structure IBPlusTree : Type where
  root : IBNode
  metadata : IBMeta
  deriving Repr

/-- `BPlusTree::new`: an empty leaf root, `num_keys = 0`,
`tree_height = 1`, `root_offset = 0`. -/
def IBPlusTree.new (name field : List Char) (unique : Bool) : IBPlusTree :=
  ⟨.leaf [] [] 0,
    { name := name, field := field, unique := unique, sparse := false,
      numKeys := 0, treeHeight := 1, rootOffset := 0 }⟩

/-- `BPlusTree::search_in_node` / `search`: an internal root returns
`None` (the child-loading branch is a TODO in the source); a leaf does a
binary search. -/
def IBPlusTree.search (t : IBPlusTree) (key : IndexKey) : Option DocumentId :=
  match t.root with
  | .internal _ _ => none
  | .leaf keys documentIds _ =>
    match rustBinSearch keys (fun k => k.cmp key) with
    | .inl idx => documentIds.get? idx
    | .inr _ => none

/-- `BPlusTree::insert`: unique check via `search` first (returning
`IndexError` with the tree untouched), then a sorted insert into the
leaf root (`num_keys` incremented); an internal root is left unchanged
apart from the error-free return. -/
def IBPlusTree.insert (t : IBPlusTree) (key : IndexKey) (docId : DocumentId) :
    IBPlusTree × Option IdxErr :=
  if t.metadata.unique && (t.search key).isSome then
    (t, some .duplicateKey)
  else
    match t.root with
    | .leaf keys documentIds nextOff =>
      let pos := searchPos (rustBinSearch keys (fun k => k.cmp key))
      ({ t with root := .leaf (keys.insertIdx pos key) (documentIds.insertIdx pos docId) nextOff,
                metadata := { t.metadata with numKeys := t.metadata.numKeys + 1 } }, none)
    | n => ({ t with root := n }, none)

/-- `BPlusTree::size`: `metadata.num_keys`. -/
def IBPlusTree.size (t : IBPlusTree) : Nat := t.metadata.numKeys

/-- `IndexManager` from `ironbase-core/src/index.rs`, restricted to its
B+ tree indexes (the `HashMap<String, BPlusTree>` modelled as an
association list; the legacy HashMap indexes and the file-path map play
no part in the claims). -/
structure IndexManager : Type where
  btreeIndexes : List (List Char × IBPlusTree)

/-- Lookup in the association list (`HashMap::get`). -/
def IndexManager.getBtreeIndex (m : IndexManager) (name : List Char) : Option IBPlusTree :=
  (m.btreeIndexes.find? (fun p => p.1 = name)).map (·.2)

/-- `IndexManager::create_btree_index`: fail with `IndexError` when the
name is taken, otherwise insert a fresh `BPlusTree::new`. -/
def IndexManager.createBtreeIndex (m : IndexManager) (name field : List Char)
    (unique : Bool) : Except IdxErr IndexManager :=
  if (m.getBtreeIndex name).isSome then .error .indexExists
  else .ok ⟨m.btreeIndexes ++ [(name, IBPlusTree.new name field unique)]⟩

/-- `CollectionCore::create_index`
(`mongolite-core/src/collection_core.rs`): the index name is
`{collection}_{field}` and the manager just creates an empty B+ tree —
the marked TODO in the source means existing documents are not
back-filled.  Returns the created index name with the updated manager. -/
def createIndex (collName : List Char) (m : IndexManager) (field : List Char)
    (unique : Bool) : Except IdxErr (List Char × IndexManager) :=
  let indexName := collName ++ ['_'] ++ field
  (m.createBtreeIndex indexName field unique).map (fun m' => (indexName, m'))

/-! ## Query planner (`mongolite-core/src/query_planner.rs`) -/

/-- A JSON-ish value (`serde_json::Value`), with objects as
association lists in `BTreeMap` ascending-key order (the order in which
`serde_json`'s default map iterates) and numbers restricted to the
`i64`-representable integers the claims exercise. -/
inductive JsonVal : Type
  | null
  | bool (b : Bool)
  | num (i : ℤ)
  | str (s : String)
  | arr (xs : List JsonVal)
  | obj (fields : List (String × JsonVal))
  deriving Repr

/-- `IndexKey::from(&Value)` (`index.rs`, both crates): null → Null,
bool → Bool, integer number → Int, string → String, arrays and objects
→ Null. -/
def indexKeyOfJson : JsonVal → IndexKey
  | .null => .null
  | .bool b => .bool b
  | .num i => .int i
  | .str s => .str s.data
  | .arr _ => .null
  | .obj _ => .null

/-- `QueryPlan` from `query_planner.rs`. -/
inductive QueryPlan : Type
  | collectionScan
  | indexScan (indexName : String) (field : String) (key : IndexKey)
  | indexRangeScan (indexName : String) (field : String)
      (start : Option IndexKey) (stop : Option IndexKey)
      (inclusiveStart : Bool) (inclusiveEnd : Bool)
  deriving DecidableEq, Repr

/-- Rust `str::starts_with` on the character level (UTF-8 byte prefixes
coincide with character prefixes). -/
def strStartsWith (s p : String) : Bool := s.data.take p.data.length = p.data

/-- Rust `str::ends_with` on the character level. -/
def strEndsWith (s p : String) : Bool :=
  decide (p.data.length ≤ s.data.length) &&
    s.data.drop (s.data.length - p.data.length) = p.data

/-- `QueryPlanner::find_index_for_field`: the first available index
whose name ends with `_{field}`. -/
def findIndexForField (field : String) (availableIndexes : List String) : Option String :=
  availableIndexes.find? (fun idx => strEndsWith idx ("_" ++ field))

/-- Object lookup (`serde_json::Map::get` / `contains_key`). -/
def jsonGet (fields : List (String × JsonVal)) (k : String) : Option JsonVal :=
  (fields.find? (fun p => p.1 = k)).map (·.2)

/-- Body of `QueryPlanner::analyze_range_query` for one top-level
`(field, conditions)` pair: `$`-prefixed fields are skipped; an object
value containing any of `$gt/$gte/$lt/$lte` becomes an
`IndexRangeScan` over the index found for the field (`$gte` beats `$gt`
for the start bound, `$lte` beats `$lt` for the end bound; a missing
bound is open with the inclusivity flags from the source). -/
def analyzeRangeField (availableIndexes : List String) (field : String)
    (conditions : JsonVal) : Option (Option (String × QueryPlan)) :=
  if strStartsWith field "$" then none
  else
    match conditions with
    | .obj condMap =>
      let hasGt := (jsonGet condMap "$gt").isSome
      let hasGte := (jsonGet condMap "$gte").isSome
      let hasLt := (jsonGet condMap "$lt").isSome
      let hasLte := (jsonGet condMap "$lte").isSome
      if hasGt || hasGte || hasLt || hasLte then
        match findIndexForField field availableIndexes with
        | none => some none
        | some indexName =>
          let start :=
            if hasGte then (jsonGet condMap "$gte").map indexKeyOfJson
            else if hasGt then (jsonGet condMap "$gt").map indexKeyOfJson
            else none
          let stop :=
            if hasLte then (jsonGet condMap "$lte").map indexKeyOfJson
            else if hasLt then (jsonGet condMap "$lt").map indexKeyOfJson
            else none
          some (some (field,
            .indexRangeScan indexName field start stop
              (hasGte || (!hasGt && !hasGte)) (hasLte || (!hasLt && !hasLte))))
      else none
    | _ => none

/-- `QueryPlanner::analyze_range_query`: walk the top-level fields in
map order; the first field that triggers the range branch determines the
result (`find_index_for_field` failing inside that branch aborts the
whole analysis with `None`, the source's `?`). -/
def analyzeRangeQuery (queryJson : JsonVal) (availableIndexes : List String) :
    Option (String × QueryPlan) :=
  match queryJson with
  | .obj fields => analyzeRangeFields availableIndexes fields
  | _ => none
where
  analyzeRangeFields (availableIndexes : List String) :
      List (String × JsonVal) → Option (String × QueryPlan)
    | [] => none
    | (field, conditions) :: rest =>
      match analyzeRangeField availableIndexes field conditions with
      | none => analyzeRangeFields availableIndexes rest
      | some none => none
      | some (some r) => some r

/-- `QueryPlanner::analyze_query`: try the range analysis first; then
refuse any root object with a `$`-prefixed key; then take the first
entry of the map as an equality candidate (skipping it if its value is
an object with `$`-operators) and build an `IndexScan` when an index
matches the field. -/
def analyzeQuery (queryJson : JsonVal) (availableIndexes : List String) :
    Option (String × QueryPlan) :=
  match queryJson with
  | .obj fields =>
    match analyzeRangeQuery (.obj fields) availableIndexes with
    | some r => some r
    | none =>
      if fields.any (fun p => strStartsWith p.1 "$") then none
      else
        match fields with
        | [] => none
        | (field, value) :: _ =>
          let valueHasOps :=
            match value with
            | .obj valMap => valMap.any (fun p => strStartsWith p.1 "$")
            | _ => false
          if valueHasOps then none
          else
            match findIndexForField field availableIndexes with
            | none => none
            | some indexName =>
              some (field, .indexScan indexName field (indexKeyOfJson value))
  | _ => none

/-! ## Metadata persistence
(`mongolite-core/src/storage/metadata.rs` — the single `metadata.rs`
shared by both crates — together with `create_collection` /
`drop_collection` from `ironbase-core/src/storage/mod.rs`).

The model covers exactly the states a create/drop/flush sequence on a
fresh engine can reach: every collection's `document_catalog` and
`indexes` are empty (only document writes populate them), so the
`serde_json` encoding of a `CollectionMeta` is the fixed-shape object
below and its byte length is the length of that string. -/

/-- `CollectionMeta` (`ironbase-core/src/storage/mod.rs`) restricted to
the fields live in a create/drop/flush sequence (catalog and index list
stay empty). -/
structure CollMeta : Type where
  name : String
  documentCount : Nat
  dataOffset : Nat
  indexOffset : Nat
  lastId : Nat
  deriving DecidableEq, Repr

/-- The `serde_json::to_vec` encoding of such a `CollectionMeta`
(struct-declaration field order; `{`/`}` written as `\x7b`/`\x7d`).
Collection names are assumed to need no JSON escaping, true of every
name in the claims. -/
def collMetaJson (m : CollMeta) : String :=
  "\x7b\"name\":\"" ++ m.name ++ "\",\"document_count\":" ++ toString m.documentCount ++
    ",\"data_offset\":" ++ toString m.dataOffset ++
    ",\"index_offset\":" ++ toString m.indexOffset ++
    ",\"last_id\":" ++ toString m.lastId ++
    ",\"document_catalog\":\x7b\x7d,\"indexes\":[]\x7d"

/-- Byte length of the serialized header: `bincode` encodes
`Header { magic: [u8; 8], version: u32, page_size: u32,
collection_count: u32, free_list_head: u64, index_section_offset: u64 }`
into `8 + 4 + 4 + 4 + 8 + 8 = 36` bytes. -/
def headerLen : Nat := 36

/-- `StorageEngine::write_metadata`: header at offset 0, then each
collection record as `u32 length + payload`; returns the end offset of
the metadata section. -/
def writeMetadataEnd (colls : List CollMeta) : Nat :=
  headerLen + (colls.map (fun m => 4 + (collMetaJson m).length)).sum

/-- One offset update of `flush_metadata`'s convergence loop: every
collection's `data_offset` and `index_offset` are set to the current
metadata end. -/
def setOffsets (colls : List CollMeta) (off : Nat) : List CollMeta :=
  colls.map (fun m => { m with dataOffset := off, indexOffset := off })

/-- The convergence loop of `StorageEngine::flush_metadata` (at most 5
iterations): rewrite the offsets to the current metadata end, reserialize,
and stop when the metadata end is stable. -/
def flushIter : Nat → List CollMeta → Nat → List CollMeta
  | 0, colls, _ => colls
  | fuel + 1, colls, cur =>
    let colls' := setOffsets colls cur
    let new := writeMetadataEnd colls'
    if new = cur then colls' else flushIter fuel colls' new

/-- `StorageEngine::flush_metadata` restricted to its effect on the
in-memory collection metadata (the file truncation and fsync do not
touch the offsets). -/
def flushMetadata (colls : List CollMeta) : List CollMeta :=
  flushIter 5 colls (writeMetadataEnd colls)

/-- `StorageEngine::create_collection`: duplicate-name check, insert a
placeholder metadata record (`data_offset = 0`), then `flush_metadata`. -/
def createCollection (colls : List CollMeta) (name : String) :
    Option (List CollMeta) :=
  if (colls.find? (fun m => m.name = name)).isSome then none
  else some (flushMetadata (colls ++
    [{ name := name, documentCount := 0, dataOffset := 0, indexOffset := 0, lastId := 0 }]))

/-- `StorageEngine::drop_collection`: remove the record, then
`flush_metadata`. -/
def dropCollection (colls : List CollMeta) (name : String) :
    Option (List CollMeta) :=
  if (colls.find? (fun m => m.name = name)).isSome then
    some (flushMetadata (colls.filter (fun m => m.name ≠ name)))
  else none

/-- `DATA_START_OFFSET` from `ironbase-core/src/storage/mod.rs`:
`HEADER_SIZE (256) + RESERVED_METADATA_SIZE (256 * 1024)`. -/
def DATA_START_OFFSET : Nat := 256 + 256 * 1024

/-! ## WAL recovery
(`WriteAheadLog::recover` in `ironbase-core/src/wal.rs` and
`StorageEngine::recover_from_wal` in `ironbase-core/src/storage/mod.rs`).

Frames are modelled at the payload level (the byte round-trip is the
subject of the `WALEntry` model above): an `Operation` frame carries the
`transaction::Operation` it encodes, an `IndexChange` frame the
`{collection, index_name, operation, key, doc_id}` record.  `recover`
groups frames into a `std::collections::HashMap` keyed by transaction id
and then iterates that map; the iteration order of a Rust `HashMap` is
unspecified (randomised per process), so the model takes the order in
which the map yields its keys as an explicit parameter. -/

/-- `transaction::Operation` (`ironbase-core/src/transaction.rs`); the
document trees are abstracted to tokens (`Nat`), enough to distinguish
records. -/
inductive TxOp : Type
  | insert (collection : List Char) (docId : DocumentId) (doc : Nat)
  | update (collection : List Char) (docId : DocumentId) (oldDoc newDoc : Nat)
  | delete (collection : List Char) (docId : DocumentId) (oldDoc : Nat)
  deriving DecidableEq, Repr

/-- `transaction::IndexOperation`. -/
inductive IndexOperationM : Type
  | insert
  | delete
  deriving DecidableEq, Repr

/-- Payload of a recovered frame. -/
inductive FramePayload : Type
  | unit
  | op (o : TxOp)
  | ixChange (collection indexName : List Char) (operation : IndexOperationM)
      (key : TxIndexKey) (docId : DocumentId)
  deriving DecidableEq, Repr

/-- A WAL frame at payload level. -/
structure Frame : Type where
  tx : Nat
  type : WALEntryType
  payload : FramePayload
  deriving DecidableEq, Repr

/-- Distinct transaction ids of a frame list, in first-appearance
order. -/
def walTxIds (entries : List Frame) : List Nat :=
  (entries.map (·.tx)).dedup

/-- `WriteAheadLog::recover` with the `HashMap` iteration order given by
`order`: group the frames by transaction id (order within a transaction
is the file order, as `HashMap::entry(...).push` preserves it), iterate
the groups in `order`, and keep exactly the groups whose last frame is a
`Commit`. -/
def walRecover (entries : List Frame) (order : List Nat) : List (List Frame) :=
  (order.map (fun tid => entries.filter (fun e => e.tx = tid))).filter
    (fun g => match g.getLast? with
      | some e => e.type = WALEntryType.commit
      | none => false)

/-- A record as `StorageEngine`'s replay appends it to the data file:
Insert/Update append the (new) document, Delete appends a tombstone
bearing `_id` and `_collection`. -/
inductive AppliedWrite : Type
  | doc (collection : List Char) (docId : DocumentId) (body : Nat)
  | tomb (collection : List Char) (docId : DocumentId)
  deriving DecidableEq, Repr

/-- `RecoveredIndexChange` (`ironbase-core/src/storage/mod.rs`). -/
structure RecoveredIndexChange : Type where
  collection : List Char
  indexName : List Char
  operation : IndexOperationM
  key : TxIndexKey
  docId : DocumentId
  deriving DecidableEq, Repr

/-- The per-frame step of `recover_from_wal`'s replay loop: an
`Operation` frame is reapplied to the data file, an `IndexChange` frame
is collected, markers are skipped. -/
def replayFrame (acc : List AppliedWrite × List RecoveredIndexChange) (e : Frame) :
    List AppliedWrite × List RecoveredIndexChange :=
  match e.type, e.payload with
  | .operation, .op (.insert c i d) => (acc.1 ++ [.doc c i d], acc.2)
  | .operation, .op (.update c i _ d) => (acc.1 ++ [.doc c i d], acc.2)
  | .operation, .op (.delete c i _) => (acc.1 ++ [.tomb c i], acc.2)
  | .indexChange, .ixChange c n o k i => (acc.1, acc.2 ++ [⟨c, n, o, k, i⟩])
  | _, _ => acc

/-- `StorageEngine::recover_from_wal` under a given `HashMap` iteration
order: recover the committed transactions, replay their frames in group
order appending to the data file (initially `dataFile`), collect the
index changes, and clear the WAL.  Returns
`(appended data file, recovered index changes, cleared WAL)`. -/
def recoverFromWal (dataFile : List AppliedWrite) (entries : List Frame)
    (order : List Nat) :
    List AppliedWrite × List RecoveredIndexChange × List Frame :=
  let committed := walRecover entries order
  let (dataFile', changes) := (committed.flatten).foldl replayFrame (dataFile, [])
  (dataFile', changes, [])

/-! ## Compaction
(`StorageEngine::compact_with_config` and `flush_compaction_chunk`,
`ironbase-core/src/storage/compaction.rs`).

The data region is modelled as the list of its parsed records in file
order (the scan loop walks the length-prefixed records sequentially from
the collection's `data_offset`; every record in the model carries the
`_collection`, `_id` and `_tombstone` fields the code extracts, with the
rest of the document abstracted to a token).  `docs_by_id` is a
`HashMap`; the flush of a chunk iterates it in an arbitrary order, which
is immaterial here because distinct ids produce disjoint records and the
claims below are evaluated with singleton chunks — the model iterates in
insertion order. -/

/-- A parsed document record of the data region. -/
structure DRec : Type where
  collection : List Char
  id : DocumentId
  tombstone : Bool
  body : Nat
  deriving DecidableEq, Repr

/-- `HashMap::insert` on an association list: overwrite the value of an
existing key in place, or append a new binding. -/
def upsert (l : List (DocumentId × DRec)) (k : DocumentId) (v : DRec) :
    List (DocumentId × DRec) :=
  if (l.find? (fun p => p.1 = k)).isSome then
    l.map (fun p => if p.1 = k then (k, v) else p)
  else l ++ [(k, v)]

/-- `StorageEngine::flush_compaction_chunk`: write the non-tombstone
documents of the chunk to the new file (updating the catalog and the
kept count), count and drop tombstones.  Returns
`(written records, documents_kept, tombstones_removed)`. -/
def flushCompactionChunk (docs : List (DocumentId × DRec)) :
    List DRec × Nat × Nat :=
  docs.foldl
    (fun acc p =>
      if p.2.tombstone then (acc.1, acc.2.1, acc.2.2 + 1)
      else (acc.1 ++ [p.2], acc.2.1 + 1, acc.2.2))
    ([], 0, 0)

/-- The per-collection scan loop of `compact_with_config`: walk the data
region, track the latest version of every id of this collection in
`docs_by_id`, flush the chunk whenever it reaches `chunkSize` tracked
documents, and flush the remainder at the end. -/
def compactScanColl (chunkSize : Nat) (collName : List Char) :
    List DRec → List (DocumentId × DRec) → Nat → List DRec × Nat × Nat
  | [], docs, _ =>
    if docs.isEmpty then ([], 0, 0) else flushCompactionChunk docs
  | r :: rest, docs, cnt =>
    if r.collection = collName then
      let docs' := upsert docs r.id r
      let cnt' := cnt + 1
      if chunkSize ≤ cnt' then
        let (w, k, t) := flushCompactionChunk docs'
        let (w', k', t') := compactScanColl chunkSize collName rest [] 0
        (w ++ w', k + k', t + t')
      else compactScanColl chunkSize collName rest docs' cnt'
    else compactScanColl chunkSize collName rest docs cnt

/-- `StorageEngine::compact_with_config` on the data region: collections
are processed one after the other (their surviving records are written
sequentially into the new file), with per-collection chunked scans.
Returns `(new data region, documents_kept, tombstones_removed)`. -/
def compactWithConfig (chunkSize : Nat) (collNames : List (List Char))
    (recs : List DRec) : List DRec × Nat × Nat :=
  collNames.foldl
    (fun acc c =>
      let (w, k, t) := compactScanColl chunkSize c recs [] 0
      (acc.1 ++ w, acc.2.1 + k, acc.2.2 + t))
    ([], 0, 0)

/-- The latest record per id, by file order (later records win), the
"latest-version view" a reader reconstructs. -/
def latestById (recs : List DRec) : List (DocumentId × DRec) :=
  recs.foldl (fun acc r => upsert acc r.id r) []

/-- Live pairs of a collection: latest record per id, restricted to the
collection, tombstones dropped — the `_id ↦ latest non-tombstone value`
view quoted by the compaction claim. -/
def livePairs (collName : List Char) (recs : List DRec) :
    List (DocumentId × Nat) :=
  ((latestById (recs.filter (fun r => r.collection = collName))).filter
    (fun p => !p.2.tombstone)).map (fun p => (p.1, p.2.body))

/-! ## Non-transactional collection writes and the transactional commit
(`CollectionCore::insert_one` / `update_one` / `delete_one` in
`mongolite-core/src/collection_core.rs`, and
`StorageEngine::commit_transaction` in
`ironbase-core/src/storage/mod.rs`).

The storage state tracks what the claim compares: the WAL frame list,
the two fsync counters, the data file (as appended records), the
collection's `last_id`, and the key set of the automatic unique `_id`
index (the collection is modelled with only that index).  The query
matcher and the `$set/$inc/$unset` update engine are external
collaborators of the core (spec §1) and enter as predicate/function
parameters. -/

/-- The storage-engine state visible to the claim. -/
structure StoreState : Type where
  lastId : Nat
  dataFile : List AppliedWrite
  wal : List Frame
  walSyncs : Nat
  dataSyncs : Nat
  idIndexKeys : List ℤ
  deriving DecidableEq, Repr

/-- `CollectionCore::insert_one`: auto-assign `_id = Int(last_id + 1)`
and bump `last_id`, insert into the unique `_id` index (early `?` return
on a duplicate — `last_id` stays bumped), then `write_data` the document.
No WAL frame is written and no fsync is issued on this path. -/
def insertOne (s : StoreState) (collName : List Char) (body : Nat) :
    StoreState × Except IdxErr DocumentId :=
  let i : ℤ := (s.lastId : ℤ) + 1
  let s := { s with lastId := s.lastId + 1 }
  if (s.idIndexKeys.find? (fun k => k = i)).isSome then
    (s, .error .duplicateKey)
  else
    let s := { s with idIndexKeys := s.idIndexKeys ++ [i] }
    ({ s with dataFile := s.dataFile ++ [.doc collName (.int i) body] },
      .ok (.int i))

/-- The latest-version map built by the first pass of
`delete_one`/`update_one` (these passes track every record regardless of
collection), iterated in the `HashMap` order given by `order`. -/
def latestDocs (dataFile : List AppliedWrite) (order : List DocumentId) :
    List AppliedWrite :=
  let m := dataFile.foldl
    (fun (acc : List (DocumentId × AppliedWrite)) w =>
      match w with
      | .doc c i b =>
        if (acc.find? (fun p => p.1 = i)).isSome then
          acc.map (fun p => if p.1 = i then (i, AppliedWrite.doc c i b) else p)
        else acc ++ [(i, .doc c i b)]
      | .tomb c i =>
        if (acc.find? (fun p => p.1 = i)).isSome then
          acc.map (fun p => if p.1 = i then (i, AppliedWrite.tomb c i) else p)
        else acc ++ [(i, .tomb c i)])
    []
  order.filterMap (fun k => (m.find? (fun p => p.1 = k)).map (·.2))

/-- Second pass of `CollectionCore::delete_one`: skip tombstones, find
the first match of the predicate, append one tombstone for it.  Returns
the records to append (`[]` or one tombstone). -/
def deleteOnePass (pred : AppliedWrite → Bool) : List AppliedWrite → List AppliedWrite
  | [] => []
  | w :: rest =>
    match w with
    | .tomb _ _ => deleteOnePass pred rest
    | .doc c i _ => if pred w then [.tomb c i] else deleteOnePass pred rest

/-- `CollectionCore::delete_one` (matcher and `HashMap` iteration order
as parameters): the only state change is the appended tombstone (if a
live document matches); the WAL, the fsync counters, `last_id` and the
indexes are untouched. -/
def deleteOne (s : StoreState) (pred : AppliedWrite → Bool)
    (order : List DocumentId) : StoreState × Nat :=
  let extra := deleteOnePass pred (latestDocs s.dataFile order)
  ({ s with dataFile := s.dataFile ++ extra }, extra.length)

/-- Second pass of `CollectionCore::update_one`: skip tombstones, on the
first match apply the update; when it modifies the document append a
tombstone for the old version followed by the new version. -/
def updateOnePass (collName : List Char) (pred : AppliedWrite → Bool)
    (upd : Nat → Option Nat) : List AppliedWrite → List AppliedWrite
  | [] => []
  | w :: rest =>
    match w with
    | .tomb _ _ => updateOnePass collName pred upd rest
    | .doc c i b =>
      if pred w then
        match upd b with
        | some b' => [.tomb c i, .doc collName i b']
        | none => []
      else updateOnePass collName pred upd rest

/-- `CollectionCore::update_one` (matcher, update application and
`HashMap` iteration order as parameters): appends at most a tombstone
plus the new version; WAL, fsync counters, `last_id` and indexes are
untouched. -/
def updateOne (s : StoreState) (collName : List Char)
    (pred : AppliedWrite → Bool) (upd : Nat → Option Nat)
    (order : List DocumentId) : StoreState × Nat :=
  let extra := updateOnePass collName pred upd (latestDocs s.dataFile order)
  ({ s with dataFile := s.dataFile ++ extra }, extra.length / 2)

/-- `TransactionState` (`ironbase-core/src/transaction.rs`). -/
inductive TxState : Type
  | active
  | committed
  | aborted
  deriving DecidableEq, Repr

/-- An in-memory `Transaction`: buffered operations, index changes
(flattened to `(index_name, change)` pairs in buffer order), metadata
changes (`last_id` values), and the state machine. -/
structure TransactionM : Type where
  id : Nat
  ops : List TxOp
  ixChanges : List (List Char × IndexOperationM × TxIndexKey × DocumentId)
  metaChanges : List Nat
  state : TxState
  deriving DecidableEq, Repr

/-- `Transaction::new`. -/
def TransactionM.new (id : Nat) : TransactionM := ⟨id, [], [], [], .active⟩

/-- The collection of a `transaction::Operation` (used by
`commit_transaction` to stamp index-change WAL payloads). -/
def TxOp.collection : TxOp → List Char
  | .insert c _ _ => c
  | .update c _ _ _ => c
  | .delete c _ _ => c

/-- `StorageEngine::apply_operations`: the record each operation appends
to the data file. -/
def applyOp : TxOp → AppliedWrite
  | .insert c i d => .doc c i d
  | .update c i _ d => .doc c i d
  | .delete c i _ => .tomb c i

/-- Errors of the transaction state machine. -/
inductive TxErr : Type
  | transactionCommitted
  deriving DecidableEq, Repr

/-- `StorageEngine::commit_transaction`, the nine-step sequence: require
`Active`; append BEGIN, one OPERATION frame per buffered op, one
INDEX_CHANGE frame per buffered index change (stamped with the first
operation's collection), and COMMIT; fsync the WAL; apply the operations
to the data file; apply the metadata changes (`last_id`); fsync the data
file; mark the transaction committed. -/
def commitTransaction (s : StoreState) (tx : TransactionM) :
    (StoreState × TransactionM) × Option TxErr :=
  if tx.state ≠ TxState.active then ((s, tx), some .transactionCommitted)
  else
    let collName := ((tx.ops.head?).map TxOp.collection).getD []
    let opFrames := tx.ops.map (fun o => Frame.mk tx.id .operation (.op o))
    let ixFrames := tx.ixChanges.map
      (fun c => Frame.mk tx.id .indexChange (.ixChange collName c.1 c.2.1 c.2.2.1 c.2.2.2))
    let s := { s with
      wal := s.wal ++ [Frame.mk tx.id .begin .unit] ++ opFrames ++ ixFrames ++
        [Frame.mk tx.id .commit .unit] }
    let s := { s with walSyncs := s.walSyncs + 1 }
    let s := { s with dataFile := s.dataFile ++ tx.ops.map applyOp }
    let s := { s with lastId := tx.metaChanges.foldl (fun _ v => v) s.lastId }
    let s := { s with dataSyncs := s.dataSyncs + 1 }
    ((s, { tx with state := .committed }), none)

/-- Wrapping one operation in a transaction and committing it — the
right-hand side of the claimed equivalence for non-transactional
writes. -/
def singleOpCommit (s : StoreState) (txId : Nat) (o : TxOp) :
    (StoreState × TransactionM) × Option TxErr :=
  commitTransaction s { TransactionM.new txId with ops := [o] }

/-! ## Concrete instances used by the claim evaluations -/

/-- Thirty-two insertions of the same key `Int 0` with distinct ids
(legal in a non-unique index). -/
def dupPairs : List (IndexKey × DocumentId) :=
  (List.range 32).map (fun i => (IndexKey.int 0, DocumentId.int i))

/-- The tree `BPlusTreeFull` builds from those insertions (one leaf
split occurs at the 32nd insert). -/
def dupTree : BPlusTreeFull :=
  (BPlusTreeFull.new [] [] false).insertAll dupPairs

/-- A WAL holding two committed transactions that both wrote a record
for `_id = 1` of collection `c`: transaction 1 wrote document `10`,
transaction 2 (committed later) wrote document `20`. -/
def c2Frames : List Frame :=
  [⟨1, .begin, .unit⟩, ⟨1, .operation, .op (.insert ['c'] (.int 1) 10)⟩, ⟨1, .commit, .unit⟩,
   ⟨2, .begin, .unit⟩, ⟨2, .operation, .op (.insert ['c'] (.int 1) 20)⟩, ⟨2, .commit, .unit⟩]

/-- A data region holding a live document for `_id = 1` of collection
`c` followed by its tombstone: the id is deleted in the latest-version
view. -/
def c3File : List DRec :=
  [⟨['c'], .int 1, false, 100⟩, ⟨['c'], .int 1, true, 0⟩]

/-- A fresh storage state for collection `c`: no documents, empty WAL,
no fsyncs yet, empty `_id` index. -/
def c4S0 : StoreState := ⟨0, [], [], 0, 0, []⟩

/-- A query whose root object holds the reserved marker `$or` next to a
range condition on `age`. -/
def c9Query : JsonVal := .obj [("$or", .arr []), ("age", .obj [("$gte", .num 5)])]

/-- A one-key unique `BPlusTreeFull` used to witness the duplicate-key
rejection. -/
def c5Tree : BPlusTreeFull :=
  ((BPlusTreeFull.new [] [] true).insert (.int 5) (.int 1)).1

/-- A one-key unique ironbase `BPlusTree` used to witness the
duplicate-key rejection. -/
def c5TreeI : IBPlusTree :=
  ((IBPlusTree.new [] [] true).insert (.int 5) (.int 1)).1

/-- The frame produced by `WALEntry::new(0, Begin, data₁₆)` whose first
four payload bytes spell, little-endian, the CRC32 of the 13-byte frame
header reinterpreted with length 0 — the frame whose serialization
survives a single-bit flip in its length field. -/
def c8Entry : WALEntry :=
  WALEntry.new 0 .begin (toLe 4 840199986 ++ List.replicate 12 0)

/-! # Theorems

Helper lemmas first, then one theorem per claim of the specification
audit (with a witness instance where the theorem carries hypotheses). -/

/-- A binary search over an empty list misses immediately. -/
theorem rustBinSearch_nil {α : Type _} (f : α → Ordering) :
    rustBinSearch ([] : List α) f = .inr 0 := rfl

/-- `deleteOnePass` appends at most one record. -/
theorem deleteOnePass_length_le (pred : AppliedWrite → Bool) :
    ∀ l : List AppliedWrite, (deleteOnePass pred l).length ≤ 1 := by
  intro l
  induction l with
  | nil => simp [deleteOnePass]
  | cons w rest ih =>
    cases w with
    | tomb c i => simpa [deleteOnePass] using ih
    | doc c i b =>
      by_cases h : pred (.doc c i b) = true
      · simp [deleteOnePass, h]
      · simp only [Bool.not_eq_true] at h
        simpa [deleteOnePass, h] using ih

/-- `updateOnePass` appends at most two records. -/
theorem updateOnePass_length_le (collName : List Char) (pred : AppliedWrite → Bool)
    (upd : Nat → Option Nat) :
    ∀ l : List AppliedWrite, (updateOnePass collName pred upd l).length ≤ 2 := by
  intro l
  induction l with
  | nil => simp [updateOnePass]
  | cons w rest ih =>
    cases w with
    | tomb c i => simpa [updateOnePass] using ih
    | doc c i b =>
      by_cases h : pred (.doc c i b) = true
      · cases hu : upd b <;> simp [updateOnePass, h, hu]
      · simp only [Bool.not_eq_true] at h
        simpa [updateOnePass, h] using ih

/-- Claim C1: the claim states that after any create/drop-collection +
flush sequence every collection's recorded `data_offset` equals the
fixed data start `256 + 256·1024 = 262400` and stays constant.  On the
code, `flush_metadata` instead converges each `data_offset` to the end
offset of the serialized metadata: creating collection `a` on a fresh
engine records `data_offset = 155`, and creating a second collection
`b` moves every collection's `data_offset` to `274` — never the fixed
data start, and not constant across the sequence. -/
theorem claim_C1_data_offset_tracks_metadata_end :
    (createCollection [] "a").map (fun cs => cs.map (·.dataOffset)) = some [155] ∧
    ((createCollection [] "a").bind (fun cs => createCollection cs "b")).map
      (fun cs => cs.map (·.dataOffset)) = some [274, 274] ∧
    (155 : Nat) ≠ DATA_START_OFFSET ∧ (274 : Nat) ≠ DATA_START_OFFSET := by
  refine ⟨by decide, by decide, by decide, by decide⟩

/-- Claim C2: the claim states that `recover_from_wal` reapplies the
committed transactions' Operation frames in WAL order, so two committed
writes to the same `_id` are reappended in their original commit order.
The code groups the frames into a `std::collections::HashMap` and
iterates it in an unspecified order: on a WAL holding committed
transactions 1 then 2 (both writing `_id = 1`), the iteration order
`[2, 1]` — a permutation of the grouped keys that a Rust `HashMap` may
produce — reapplies the records in the reversed order, yielding a
different data file than WAL order. -/
theorem claim_C2_recovery_order_follows_hashmap_iteration :
    walTxIds c2Frames = [1, 2] ∧
    List.Perm [2, 1] (walTxIds c2Frames) ∧
    (recoverFromWal [] c2Frames [1, 2]).1 =
      [.doc ['c'] (.int 1) 10, .doc ['c'] (.int 1) 20] ∧
    (recoverFromWal [] c2Frames [2, 1]).1 =
      [.doc ['c'] (.int 1) 20, .doc ['c'] (.int 1) 10] ∧
    (recoverFromWal [] c2Frames [2, 1]).1 ≠ (recoverFromWal [] c2Frames [1, 2]).1 := by
  refine ⟨by decide, by decide, by decide, by decide, by decide⟩

/-- Claim C3: the claim states `compact` preserves the live
(`_id` → latest non-tombstone value) pairs of every collection — no
deleted id reappears — also when a collection holds more documents than
the compaction chunk size.  On the code, with chunk size 1 and a data
region holding a live record for `_id = 1` followed by its tombstone,
the live record is flushed out in the first chunk and the tombstone is
dropped in the second, so the compacted file resurrects the deleted id:
live pairs change from `{}` to `{1 ↦ 100}` (with `tombstones_removed`
reported as 1). -/
theorem claim_C3_chunked_compaction_resurrects_deleted_id :
    livePairs ['c'] c3File = [] ∧
    (compactWithConfig 1 [['c']] c3File).1 = [⟨['c'], .int 1, false, 100⟩] ∧
    livePairs ['c'] (compactWithConfig 1 [['c']] c3File).1 = [(.int 1, 100)] ∧
    (compactWithConfig 1 [['c']] c3File).2.2 = 1 ∧
    livePairs ['c'] (compactWithConfig 1 [['c']] c3File).1 ≠ livePairs ['c'] c3File := by
  refine ⟨by decide, by decide, by decide, by decide, by decide⟩

/-- Claim C4 (counterexample): on a fresh collection state,
`insert_one` writes no WAL frame and performs no fsync, while wrapping
the same single insert in a transaction and committing it writes the
BEGIN/OPERATION/COMMIT frames and fsyncs both the WAL and the data
file — the two paths are not equivalent. -/
theorem claim_C4_counterexample :
    (insertOne c4S0 ['c'] 7).1.wal = [] ∧
    (insertOne c4S0 ['c'] 7).1.walSyncs = 0 ∧
    (insertOne c4S0 ['c'] 7).1.dataSyncs = 0 ∧
    ((singleOpCommit c4S0 1 (.insert ['c'] (.int 1) 7)).1.1).wal =
      [⟨1, .begin, .unit⟩, ⟨1, .operation, .op (.insert ['c'] (.int 1) 7)⟩,
        ⟨1, .commit, .unit⟩] ∧
    ((singleOpCommit c4S0 1 (.insert ['c'] (.int 1) 7)).1.1).walSyncs = 1 ∧
    ((singleOpCommit c4S0 1 (.insert ['c'] (.int 1) 7)).1.1).dataSyncs = 1 ∧
    (insertOne c4S0 ['c'] 7).1.wal ≠
      ((singleOpCommit c4S0 1 (.insert ['c'] (.int 1) 7)).1.1).wal := by
  refine ⟨by decide, by decide, by decide, by decide, by decide, by decide, by decide⟩

/-- Claim C4 (amended): the non-transactional `insert_one`, `delete_one`
and `update_one` do not wrap a transaction: whatever the state, the
matcher, the update function and the map-iteration order, they leave
the WAL and both fsync counters untouched and only append records
directly to the data file — one document on a successful insert, at
most one tombstone on delete, at most a tombstone plus the new version
on update. -/
theorem claim_C4_direct_writes_bypass_wal (s : StoreState) (c : List Char) (b : Nat)
    (pred : AppliedWrite → Bool) (upd : Nat → Option Nat) (ord : List DocumentId) :
    ((insertOne s c b).1.wal = s.wal ∧
      (insertOne s c b).1.walSyncs = s.walSyncs ∧
      (insertOne s c b).1.dataSyncs = s.dataSyncs ∧
      ((insertOne s c b).2 = .ok (.int (s.lastId + 1)) →
        (insertOne s c b).1.dataFile =
          s.dataFile ++ [.doc c (.int (s.lastId + 1)) b])) ∧
    ((deleteOne s pred ord).1.wal = s.wal ∧
      (deleteOne s pred ord).1.walSyncs = s.walSyncs ∧
      (deleteOne s pred ord).1.dataSyncs = s.dataSyncs ∧
      (deleteOne s pred ord).1.dataFile =
        s.dataFile ++ deleteOnePass pred (latestDocs s.dataFile ord) ∧
      (deleteOnePass pred (latestDocs s.dataFile ord)).length ≤ 1) ∧
    ((updateOne s c pred upd ord).1.wal = s.wal ∧
      (updateOne s c pred upd ord).1.walSyncs = s.walSyncs ∧
      (updateOne s c pred upd ord).1.dataSyncs = s.dataSyncs ∧
      (updateOne s c pred upd ord).1.dataFile =
        s.dataFile ++ updateOnePass c pred upd (latestDocs s.dataFile ord) ∧
      (updateOnePass c pred upd (latestDocs s.dataFile ord)).length ≤ 2) := by
  refine ⟨⟨?_, ?_, ?_, ?_⟩, ⟨?_, ?_, ?_, ?_, ?_⟩, ⟨?_, ?_, ?_, ?_, ?_⟩⟩
  · by_cases h : (s.idIndexKeys.find? (fun k => k = (s.lastId : ℤ) + 1)).isSome <;>
      simp [insertOne, h]
  · by_cases h : (s.idIndexKeys.find? (fun k => k = (s.lastId : ℤ) + 1)).isSome <;>
      simp [insertOne, h]
  · by_cases h : (s.idIndexKeys.find? (fun k => k = (s.lastId : ℤ) + 1)).isSome <;>
      simp [insertOne, h]
  · intro hok
    by_cases h : (s.idIndexKeys.find? (fun k => k = (s.lastId : ℤ) + 1)).isSome
    · simp [insertOne, h] at hok
    · simp [insertOne, h]
  · simp [deleteOne]
  · simp [deleteOne]
  · simp [deleteOne]
  · simp [deleteOne]
  · exact deleteOnePass_length_le pred _
  · simp [updateOne]
  · simp [updateOne]
  · simp [updateOne]
  · simp [updateOne]
  · exact updateOnePass_length_le c pred upd _

/-- Claim C4 (witness): the amended statement evaluated on the fresh
state with a trivial matcher and update function. -/
theorem claim_C4_direct_writes_bypass_wal_witness :
    ((insertOne c4S0 ['c'] 7).1.wal = c4S0.wal ∧
      (insertOne c4S0 ['c'] 7).1.walSyncs = c4S0.walSyncs ∧
      (insertOne c4S0 ['c'] 7).1.dataSyncs = c4S0.dataSyncs ∧
      ((insertOne c4S0 ['c'] 7).2 = .ok (.int (c4S0.lastId + 1)) →
        (insertOne c4S0 ['c'] 7).1.dataFile =
          c4S0.dataFile ++ [.doc ['c'] (.int (c4S0.lastId + 1)) 7])) ∧
    ((deleteOne c4S0 (fun _ => true) []).1.wal = c4S0.wal ∧
      (deleteOne c4S0 (fun _ => true) []).1.walSyncs = c4S0.walSyncs ∧
      (deleteOne c4S0 (fun _ => true) []).1.dataSyncs = c4S0.dataSyncs ∧
      (deleteOne c4S0 (fun _ => true) []).1.dataFile =
        c4S0.dataFile ++ deleteOnePass (fun _ => true) (latestDocs c4S0.dataFile []) ∧
      (deleteOnePass (fun _ => true) (latestDocs c4S0.dataFile [])).length ≤ 1) ∧
    ((updateOne c4S0 ['c'] (fun _ => true) some []).1.wal = c4S0.wal ∧
      (updateOne c4S0 ['c'] (fun _ => true) some []).1.walSyncs = c4S0.walSyncs ∧
      (updateOne c4S0 ['c'] (fun _ => true) some []).1.dataSyncs = c4S0.dataSyncs ∧
      (updateOne c4S0 ['c'] (fun _ => true) some []).1.dataFile =
        c4S0.dataFile ++ updateOnePass ['c'] (fun _ => true) some (latestDocs c4S0.dataFile []) ∧
      (updateOnePass ['c'] (fun _ => true) some (latestDocs c4S0.dataFile [])).length ≤ 2) :=
  claim_C4_direct_writes_bypass_wal c4S0 ['c'] 7 (fun _ => true) some []

/-- Claim C5: inserting into a unique B+ tree a key on which `search`
already hits returns `IndexError` (duplicate key) and hands back the
tree unchanged — same `num_keys` and the same `search` result for every
key — in both tree implementations (`BPlusTreeFull` of
`mongolite-core/src/btree.rs` and `BPlusTree` of
`ironbase-core/src/index.rs`). -/
theorem claim_C5_unique_duplicate_insert_rejected
    (t : BPlusTreeFull) (t2 : IBPlusTree) (k k2 : IndexKey) (d d2 d' d2' : DocumentId)
    (h1 : t.metadata.unique = true) (h2 : t.search k = some d)
    (h3 : t2.metadata.unique = true) (h4 : t2.search k2 = some d2) :
    t.insert k d' = (t, some .duplicateKey) ∧
    ((t.insert k d').1.metadata.numKeys = t.metadata.numKeys ∧
      ∀ q, ((t.insert k d').1).search q = t.search q) ∧
    t2.insert k2 d2' = (t2, some .duplicateKey) ∧
    ((t2.insert k2 d2').1.size = t2.size ∧
      ∀ q, ((t2.insert k2 d2').1).search q = t2.search q) := by
  have e1 : t.insert k d' = (t, some .duplicateKey) := by
    simp [BPlusTreeFull.insert, h1, h2]
  have e2 : t2.insert k2 d2' = (t2, some .duplicateKey) := by
    simp [IBPlusTree.insert, h3, h4]
  refine ⟨e1, ⟨by rw [e1], fun q => by rw [e1]⟩, e2, ⟨by rw [e2], fun q => by rw [e2]⟩⟩

/-- Claim C5 (witness): the rejection evaluated on concrete one-key
unique trees. -/
theorem claim_C5_unique_duplicate_insert_rejected_witness :
    c5Tree.insert (.int 5) (.int 2) = (c5Tree, some .duplicateKey) ∧
    ((c5Tree.insert (.int 5) (.int 2)).1.metadata.numKeys = c5Tree.metadata.numKeys ∧
      ∀ q, ((c5Tree.insert (.int 5) (.int 2)).1).search q = c5Tree.search q) ∧
    c5TreeI.insert (.int 5) (.int 2) = (c5TreeI, some .duplicateKey) ∧
    ((c5TreeI.insert (.int 5) (.int 2)).1.size = c5TreeI.size ∧
      ∀ q, ((c5TreeI.insert (.int 5) (.int 2)).1).search q = c5TreeI.search q) :=
  claim_C5_unique_duplicate_insert_rejected c5Tree c5TreeI (.int 5) (.int 5)
    (.int 1) (.int 1) (.int 2) (.int 2) (by decide) (by decide) (by decide) (by decide)

/-- Claim C6: the claim states `range_scan` returns exactly the ids
whose key lies in the requested interval.  After 32 insertions of the
same key into a non-unique `BPlusTreeFull` the leaf splits with the
duplicate key as separator, half the copies land strictly left of the
separator, and the scan `[key, key]` (both bounds inclusive) descends
only right of it: it returns 16 of the 32 ids that the claim requires. -/
theorem claim_C6_range_scan_misses_duplicates_after_split :
    dupPairs.length = 32 ∧
    (∀ p ∈ dupPairs, p.1 = .int 0) ∧
    dupTree.metadata.numKeys = 32 ∧
    (dupTree.rangeScan (.int 0) (.int 0) true true).length = 16 ∧
    (16 : Nat) ≠ 32 := by
  refine ⟨by decide, by decide, by decide, by decide, by decide⟩

/-- Claim C9 (counterexample): the claim states that any root object
containing a reserved `$`-marker makes the planner return
`CollectionScan` regardless of the other top-level fields.  On the
query `{"$or": [], "age": {"$gte": 5}}` with index `users_age`
available, `analyze_query` instead answers with an `IndexRangeScan` on
`age` — the range analysis runs before the `$`-key check and skips only
the `$`-keys themselves. -/
theorem claim_C9_counterexample :
    strStartsWith "$or" "$" = true ∧
    analyzeQuery c9Query ["users_age"] =
      some ("age", .indexRangeScan "users_age" "age" (some (.int 5)) none true true) := by
  refine ⟨by decide, by decide⟩

/-- Claim C9 (amended): when the root object contains any `$`-prefixed
key, `analyze_query` coincides with `analyze_range_query`: no equality
`IndexScan` is produced, and the result is `CollectionScan` (no plan)
exactly when no other top-level field carries a matching range
condition. -/
theorem claim_C9_dollar_root_defers_to_range_analysis
    (fields : List (String × JsonVal)) (ix : List String)
    (h : fields.any (fun p => strStartsWith p.1 "$") = true) :
    analyzeQuery (.obj fields) ix = analyzeRangeQuery (.obj fields) ix := by
  unfold analyzeQuery
  cases hr : analyzeRangeQuery (.obj fields) ix with
  | some r => simp [hr]
  | none => simp [hr, h]

/-- Claim C9 (witness): the amended statement evaluated on
`{"$and": []}` (planner answers `CollectionScan`) — hypotheses
discharged on the concrete query. -/
theorem claim_C9_dollar_root_defers_to_range_analysis_witness :
    analyzeQuery (.obj [("$and", .arr [])]) [] =
      analyzeRangeQuery (.obj [("$and", .arr [])]) [] ∧
    analyzeQuery (.obj [("$and", .arr [])]) [] = none :=
  ⟨claim_C9_dollar_root_defers_to_range_analysis [("$and", .arr [])] [] (by decide),
    by decide⟩

/-- Claim C10: immediately after `CollectionCore::create_index(field,
unique)` succeeds, the created index `{collection}_{field}` maps to a
fresh `BPlusTree::new` that is empty: its size is 0 and searching any
key returns nothing — existing documents are not back-filled. -/
theorem claim_C10_create_index_starts_empty (collName fieldName : List Char)
    (m : IndexManager) (unique : Bool)
    (h : m.getBtreeIndex (collName ++ ['_'] ++ fieldName) = none) :
    createIndex collName m fieldName unique =
      .ok (collName ++ ['_'] ++ fieldName,
        ⟨m.btreeIndexes ++ [(collName ++ ['_'] ++ fieldName,
          IBPlusTree.new (collName ++ ['_'] ++ fieldName) fieldName unique)]⟩) ∧
    (IBPlusTree.new (collName ++ ['_'] ++ fieldName) fieldName unique).size = 0 ∧
    ∀ k, (IBPlusTree.new (collName ++ ['_'] ++ fieldName) fieldName unique).search k = none := by
  refine ⟨?_, rfl, fun k => rfl⟩
  simp only [List.append_assoc, List.singleton_append] at h
  simp [createIndex, IndexManager.createBtreeIndex, h, Except.map]

/-- Claim C10 (witness): creating index `u_a` on an empty manager. -/
theorem claim_C10_create_index_starts_empty_witness :
    createIndex ['u'] ⟨[]⟩ ['a'] true =
      .ok (['u'] ++ ['_'] ++ ['a'],
        ⟨([] : List (List Char × IBPlusTree)) ++ [(['u'] ++ ['_'] ++ ['a'],
          IBPlusTree.new (['u'] ++ ['_'] ++ ['a']) ['a'] true)]⟩) ∧
    (IBPlusTree.new (['u'] ++ ['_'] ++ ['a']) ['a'] true).size = 0 ∧
    ∀ k, (IBPlusTree.new (['u'] ++ ['_'] ++ ['a']) ['a'] true).search k = none :=
  claim_C10_create_index_starts_empty ['u'] ['a'] ⟨[]⟩ true rfl

theorem toLe_length (k n : Nat) : (toLe k n).length = k := by
  induction k generalizing n with
  | zero => rfl
  | succ k ih => simp [toLe, ih]

theorem toLe_lt (k n : Nat) : ∀ b ∈ toLe k n, b < 256 := by
  induction k generalizing n with
  | zero => simp [toLe]
  | succ k ih =>
    intro b hb
    simp only [toLe, List.mem_cons] at hb
    rcases hb with h | h
    · subst h; exact Nat.mod_lt _ (by norm_num)
    · exact ih (n / 256) b h

theorem fromLe_toLe (k n : Nat) (h : n < 256 ^ k) : fromLe (toLe k n) = n := by
  induction k generalizing n with
  | zero =>
    simp only [pow_zero] at h
    simp [toLe, fromLe]
    omega
  | succ k ih =>
    have hdiv : n / 256 < 256 ^ k := by
      rw [pow_succ] at h
      omega
    simp [toLe, fromLe, ih (n / 256) hdiv, Nat.mod_add_div]

theorem fromLe_inj : ∀ (a b : List Nat), a.length = b.length →
    (∀ x ∈ a, x < 256) → (∀ x ∈ b, x < 256) → fromLe a = fromLe b → a = b := by
  intro a
  induction a with
  | nil => intro b hl _ _ _; exact (List.length_eq_zero.mp hl.symm).symm
  | cons x xs ih =>
    intro b hl ha hb he
    cases b with
    | nil => simp at hl
    | cons y ys =>
      simp only [fromLe] at he
      have hx : x < 256 := ha x (by simp)
      have hy : y < 256 := hb y (by simp)
      have hxy : x = y ∧ fromLe xs = fromLe ys := by constructor <;> omega
      have := ih ys (by simpa using hl) (fun z hz => ha z (by simp [hz]))
        (fun z hz => hb z (by simp [hz])) hxy.2
      rw [hxy.1, this]

theorem crcRound_lt (c : Nat) (h : c < 2 ^ 32) : crcRound c < 2 ^ 32 := by
  unfold crcRound
  split
  · exact Nat.xor_lt_two_pow (by omega) (by norm_num)
  · omega

theorem crcRounds_lt (k c : Nat) (h : c < 2 ^ 32) : crcRounds k c < 2 ^ 32 := by
  induction k generalizing c with
  | zero => exact h
  | succ k ih => exact ih _ (crcRound_lt c h)

theorem foldlCrcUpdate_lt (bs : List Nat) : ∀ init, init < 2 ^ 32 →
    (∀ b ∈ bs, b < 2 ^ 32) → bs.foldl crcUpdate init < 2 ^ 32 := by
  induction bs with
  | nil => intro init hi _; simpa using hi
  | cons b rest ih =>
    intro init hi h
    simp only [List.foldl_cons]
    exact ih _ (crcRounds_lt 8 _ (Nat.xor_lt_two_pow hi (h b (by simp))))
      (fun z hz => h z (by simp [hz]))

theorem crc32_lt (bs : List Nat) (h : ∀ b ∈ bs, b < 2 ^ 32) : crc32 bs < 2 ^ 32 := by
  unfold crc32
  exact Nat.xor_lt_two_pow (foldlCrcUpdate_lt bs 0xFFFFFFFF (by norm_num) h) (by norm_num)



theorem fromU8_toU8 (ty : WALEntryType) : WALEntryType.fromU8 ty.toU8 = some ty := by
  cases ty <;> rfl

theorem getD_append_right (A B : List Nat) (i d : Nat) :
    (A ++ B).getD (A.length + i) d = B.getD i d := by
  simp [List.getD, List.getElem?_append_right (Nat.le_add_right A.length i)]

theorem deserialize_frame (tx : Nat) (ty : WALEntryType) (data ck5 : List Nat)
    (htx : tx < 2 ^ 64) (hlen : data.length < 2 ^ 32) (hck : ck5.length = 4) :
    WALEntry.deserialize (toLe 8 tx ++ [ty.toU8] ++ toLe 4 data.length ++ data ++ ck5) =
      if WALEntry.computeChecksum ⟨tx, ty, data, fromLe ck5⟩ = fromLe ck5 then
        .ok ⟨tx, ty, data, fromLe ck5⟩
      else .error .walCorruption := by
  set n := data.length with hn
  set bytes := toLe 8 tx ++ [ty.toU8] ++ toLe 4 n ++ data ++ ck5 with hbytes
  have hblen : bytes.length = 17 + n := by
    simp [hbytes, toLe_length, hck]
    omega
  have hA8 : bytes = toLe 8 tx ++ ([ty.toU8] ++ (toLe 4 n ++ (data ++ ck5))) := by
    simp only [hbytes, List.append_assoc]
  have hA9 : bytes = (toLe 8 tx ++ [ty.toU8]) ++ (toLe 4 n ++ (data ++ ck5)) := by
    simp only [hbytes, List.append_assoc]
  have hA13 : bytes = ((toLe 8 tx ++ [ty.toU8]) ++ toLe 4 n) ++ (data ++ ck5) := by
    simp only [hbytes, List.append_assoc]
  have hA13n : bytes = (((toLe 8 tx ++ [ty.toU8]) ++ toLe 4 n) ++ data) ++ ck5 := by
    simp only [hbytes]
  have h8 : bytes.getD 8 0 = ty.toU8 := by
    rw [hA8]
    have h0 := getD_append_right (toLe 8 tx) ([ty.toU8] ++ (toLe 4 n ++ (data ++ ck5))) 0 0
    simpa [toLe_length] using h0
  have htx8 : fromLe (bytes.take 8) = tx := by
    rw [hA8, List.take_left' (toLe_length 8 tx)]
    exact fromLe_toLe 8 tx (by norm_num at htx ⊢; exact htx)
  have hdrop9 : bytes.drop 9 = toLe 4 n ++ (data ++ ck5) := by
    rw [hA9]
    exact List.drop_left' (by simp [toLe_length])
  have hdl : fromLe ((bytes.drop 9).take 4) = n := by
    rw [hdrop9, List.take_left' (toLe_length 4 n)]
    exact fromLe_toLe 4 n (by norm_num at hlen ⊢; exact hlen)
  have htaken : (bytes.drop 13).take n = data := by
    have hd : bytes.drop 13 = data ++ ck5 := by
      rw [hA13]
      exact List.drop_left' (by simp [toLe_length])
    rw [hd]
    exact List.take_left' hn.symm
  have hck4 : (bytes.drop (13 + n)).take 4 = ck5 := by
    have hd : bytes.drop (13 + n) = ck5 := by
      rw [hA13n]
      refine List.drop_left' ?_
      simp [toLe_length, hn]
      omega
    rw [hd, ← hck, List.take_length]
  simp only [WALEntry.deserialize]
  rw [if_neg (by rw [hblen]; omega)]
  rw [h8, fromU8_toU8]
  simp only [htx8, hdl, htaken, hck4]
  rw [if_neg (by rw [hblen]; omega)]



theorem set_append_right (A : List Nat) (B : List Nat) (i v : Nat) :
    (A ++ B).set (A.length + i) v = A ++ B.set i v := by
  induction A with
  | nil => simp
  | cons a as ih => simp [List.set, Nat.succ_add, ih]

theorem flipBit_append (A B : List Nat) (i j : Nat) :
    flipBit (A ++ B) (A.length + i) j = A ++ flipBit B i j := by
  unfold flipBit
  rw [getD_append_right, set_append_right]

theorem flipBit_length (bs : List Nat) (i j : Nat) :
    (flipBit bs i j).length = bs.length := by
  simp [flipBit]

theorem flipBit_lt (bs : List Nat) (i j : Nat) (hb : ∀ x ∈ bs, x < 256) (hj : j < 8) :
    ∀ x ∈ flipBit bs i j, x < 256 := by
  intro x hx
  rcases List.mem_or_eq_of_mem_set hx with h | h
  · exact hb x h
  · subst h
    by_cases hi : i < bs.length
    · have h1 : bs.getD i 0 < 256 := by
        have hmem : bs.getD i 0 ∈ bs := by
          simp only [List.getD, List.get?_eq_getElem?, List.getElem?_eq_getElem hi, Option.getD_some]
          exact List.getElem_mem hi
        have := hb (bs.getD i 0) hmem
        exact this
      have h2 : (2 : Nat) ^ j < 256 := by
        calc (2 : Nat) ^ j ≤ 2 ^ 7 := Nat.pow_le_pow_right (by norm_num) (by omega)
        _ < 256 := by norm_num
      exact Nat.xor_lt_two_pow (n := 8) h1 h2
    · have h1 : bs.getD i 0 = 0 := by
        simp [List.getD, List.getElem?_eq_none (by omega : bs.length ≤ i)]
      rw [h1]
      have h2 : (2 : Nat) ^ j < 256 := by
        calc (2 : Nat) ^ j ≤ 2 ^ 7 := Nat.pow_le_pow_right (by norm_num) (by omega)
        _ < 256 := by norm_num
      simpa using h2

theorem flipBit_ne (bs : List Nat) (i j : Nat) (hi : i < bs.length) :
    flipBit bs i j ≠ bs := by
  intro h
  have h1 : (flipBit bs i j).getD i 0 = bs.getD i 0 := by rw [h]
  have h2 : (flipBit bs i j).getD i 0 = bs.getD i 0 ^^^ 2 ^ j := by
    simp [flipBit, List.getD, List.getElem?_set_eq_of_lt _ (by omega : i < bs.length)]
  rw [h2] at h1
  have h3 : (2 : Nat) ^ j ≠ 0 := Nat.pos_iff_ne_zero.mp (Nat.pos_pow_of_pos j (by norm_num))
  have h4 : bs.getD i 0 ^^^ 2 ^ j ^^^ bs.getD i 0 = 2 ^ j := by
    rw [Nat.xor_comm (bs.getD i 0) (2 ^ j), Nat.xor_assoc, Nat.xor_self, Nat.xor_zero]
  rw [h1] at h4
  rw [Nat.xor_self] at h4
  exact h3 h4.symm



/-- Claim C8 (amended): for every frame (`u64` transaction id, any of
the five types, any `u32`-sized byte payload), deserializing the
serialization returns the frame unchanged; and every single-bit flip
inside the trailing 4 checksum bytes makes deserialization return
`WALCorruption`.  (The original claim's "every single-bit flip" fails:
see the counterexample, a flip in the length field that deserialization
accepts.) -/
theorem claim_C8_roundtrip_and_checksum_flip (tx : Nat) (ty : WALEntryType)
    (data : List Nat) (i j : Nat)
    (htx : tx < 2 ^ 64) (hlen : data.length < 2 ^ 32) (hdata : ∀ b ∈ data, b < 256)
    (hi : i < 4) (hj : j < 8) :
    WALEntry.deserialize ((WALEntry.new tx ty data).serialize) =
      .ok (WALEntry.new tx ty data) ∧
    WALEntry.deserialize
        (flipBit ((WALEntry.new tx ty data).serialize) (13 + data.length + i) j) =
      .error .walCorruption := by
  have hckdef : (WALEntry.new tx ty data).checksum =
      WALEntry.computeChecksum ⟨tx, ty, data, 0⟩ := rfl
  set ck := WALEntry.computeChecksum ⟨tx, ty, data, 0⟩ with hckd
  have hser : (WALEntry.new tx ty data).serialize =
      toLe 8 tx ++ [ty.toU8] ++ toLe 4 data.length ++ data ++ toLe 4 ck := rfl
  have hcklt : ck < 2 ^ 32 := by
    refine crc32_lt _ ?_
    intro b hb
    simp only [List.append_assoc, List.mem_append, List.mem_singleton] at hb
    rcases hb with h | h | h | h
    · exact lt_trans (toLe_lt 8 tx b h) (by norm_num)
    · subst h; cases ty <;> norm_num [WALEntryType.toU8]
    · exact lt_trans (toLe_lt 4 data.length b h) (by norm_num)
    · exact lt_trans (hdata b h) (by norm_num)
  have hfromck : fromLe (toLe 4 ck) = ck :=
    fromLe_toLe 4 ck (by norm_num at hcklt ⊢; exact hcklt)
  constructor
  · rw [hser, deserialize_frame tx ty data (toLe 4 ck) htx hlen (toLe_length 4 ck),
      hfromck]
    rw [if_pos (show WALEntry.computeChecksum ⟨tx, ty, data, ck⟩ = ck from rfl)]
    rfl
  · have hflip : flipBit ((WALEntry.new tx ty data).serialize) (13 + data.length + i) j =
        toLe 8 tx ++ [ty.toU8] ++ toLe 4 data.length ++ data ++ flipBit (toLe 4 ck) i j := by
      rw [hser]
      have hlenpre : (13 : Nat) + data.length + i =
          (((toLe 8 tx ++ [ty.toU8]) ++ toLe 4 data.length) ++ data).length + i := by
        simp [toLe_length]
        omega
      rw [hlenpre]
      exact flipBit_append _ _ i j
    rw [hflip, deserialize_frame tx ty data _ htx hlen
      (by rw [flipBit_length, toLe_length])]
    apply if_neg
    intro heq
    have hck' : ck = fromLe (flipBit (toLe 4 ck) i j) := heq
    have heqq : fromLe (flipBit (toLe 4 ck) i j) = fromLe (toLe 4 ck) := by
      rw [← hck', hfromck]
    have hlists : flipBit (toLe 4 ck) i j = toLe 4 ck :=
      fromLe_inj _ _ (by rw [flipBit_length]) (flipBit_lt _ i j (toLe_lt 4 ck) hj)
        (toLe_lt 4 ck) heqq
    exact flipBit_ne (toLe 4 ck) i j (by rw [toLe_length]; exact hi) hlists

/-- Claim C8 (witness): the amended statement evaluated on the frame
`(1, Operation, [7])` with the flip at bit 0 of the first checksum
byte. -/
theorem claim_C8_roundtrip_and_checksum_flip_witness :
    WALEntry.deserialize ((WALEntry.new 1 .operation [7]).serialize) =
      .ok (WALEntry.new 1 .operation [7]) ∧
    WALEntry.deserialize
        (flipBit ((WALEntry.new 1 .operation [7]).serialize) (13 + [7].length + 0) 0) =
      .error .walCorruption :=
  claim_C8_roundtrip_and_checksum_flip 1 .operation [7] 0 0 (by decide) (by decide)
    (by decide) (by decide) (by decide)

/-- Claim C8 (counterexample): the claim demands `WALCorruption` after
every single-bit flip in a serialized frame.  `c8Entry` is a well-formed
frame with a 16-byte payload whose first four bytes equal the CRC32 of
its header reinterpreted with payload length 0: flipping bit 4 of byte 9
(the low length byte, `16 → 0`) makes `deserialize` read an empty
payload, take the old payload's first four bytes as the stored checksum,
and accept — it returns a frame (a different one) instead of
`WALCorruption`. -/
theorem claim_C8_counterexample :
    WALEntry.deserialize (flipBit c8Entry.serialize 9 4) = .ok (WALEntry.new 0 .begin []) ∧
    WALEntry.new 0 .begin [] ≠ c8Entry := by
  refine ⟨by decide, by decide⟩

theorem cmp3_self {α : Type _} [LinearOrder α] (a : α) : cmp3 a a = .eq := by
  simp [cmp3]

theorem cmp3_swap {α : Type _} [LinearOrder α] (a b : α) : cmp3 a b = (cmp3 b a).swap := by
  rcases lt_trichotomy a b with h | h | h
  · simp [cmp3, h, lt_asymm h, Ordering.swap]
  · simp [cmp3, h, lt_irrefl, Ordering.swap]
  · simp [cmp3, h, lt_asymm h, Ordering.swap]

theorem cmp3_eq_lt_iff {α : Type _} [LinearOrder α] {a b : α} : cmp3 a b = .lt ↔ a < b := by
  unfold cmp3
  split <;> rename_i h
  · simp [h]
  · split <;> rename_i h2 <;> simp_all
theorem cmp3_eq_gt_iff {α : Type _} [LinearOrder α] {a b : α} : cmp3 a b = .gt ↔ b < a := by
  unfold cmp3
  split <;> rename_i h
  · simp [h, lt_asymm h]
  · split <;> rename_i h2 <;> simp_all

theorem cmp3_eq_eq_iff {α : Type _} [LinearOrder α] {a b : α} : cmp3 a b = .eq ↔ a = b := by
  unfold cmp3
  split <;> rename_i h
  · simp [ne_of_lt h]
  · split <;> rename_i h2 <;> simp_all
    · exact fun hh => absurd hh.symm (ne_of_lt h2)
    · exact le_antisymm h2 h

theorem cmp3_ne_gt_iff {α : Type _} [LinearOrder α] {a b : α} : cmp3 a b ≠ .gt ↔ a ≤ b := by
  rw [not_iff_comm]
  simp [cmp3_eq_gt_iff, not_le]

theorem cmp3_trans {α : Type _} [LinearOrder α] {a b c : α}
    (h1 : cmp3 a b ≠ .gt) (h2 : cmp3 b c ≠ .gt) : cmp3 a c ≠ .gt := by
  rw [cmp3_ne_gt_iff] at h1 h2 ⊢
  exact le_trans h1 h2



theorem lexCmp_self : ∀ s : List Char, lexCmp s s = .eq := by
  intro s
  induction s with
  | nil => rfl
  | cons x xs ih => simp [lexCmp, cmp3_self, ih]

theorem lexCmp_swap : ∀ a b : List Char, lexCmp a b = (lexCmp b a).swap := by
  intro a
  induction a with
  | nil => intro b; cases b <;> rfl
  | cons x xs ih =>
    intro b
    cases b with
    | nil => rfl
    | cons y ys =>
      simp only [lexCmp]
      rw [cmp3_swap x y]
      cases cmp3 y x <;> simp [Ordering.swap, ih ys]

theorem lexCmp_trans : ∀ a b c : List Char,
    lexCmp a b ≠ .gt → lexCmp b c ≠ .gt → lexCmp a c ≠ .gt := by
  intro a
  induction a with
  | nil =>
    intro b c _ _
    cases c <;> simp [lexCmp]
  | cons x xs ih =>
    intro b c h1 h2
    cases b with
    | nil => simp [lexCmp] at h1
    | cons y ys =>
      cases c with
      | nil => simp [lexCmp] at h2
      | cons z zs =>
        simp only [lexCmp] at h1 h2 ⊢
        cases hxy : cmp3 x y <;> rw [hxy] at h1 <;>
          cases hyz : cmp3 y z <;> rw [hyz] at h2
        · rw [cmp3_eq_lt_iff] at hxy hyz
          have : cmp3 x z = .lt := cmp3_eq_lt_iff.mpr (lt_trans hxy hyz)
          simp [this]
        · rw [cmp3_eq_lt_iff] at hxy
          rw [cmp3_eq_eq_iff] at hyz
          have : cmp3 x z = .lt := cmp3_eq_lt_iff.mpr (hyz ▸ hxy)
          simp [this]
        · simp at h2
        · rw [cmp3_eq_eq_iff] at hxy
          rw [cmp3_eq_lt_iff] at hyz
          have : cmp3 x z = .lt := cmp3_eq_lt_iff.mpr (hxy ▸ hyz)
          simp [this]
        · rw [cmp3_eq_eq_iff] at hxy
          rw [cmp3_eq_eq_iff] at hyz
          have : cmp3 x z = .eq := cmp3_eq_eq_iff.mpr (hxy.trans hyz)
          rw [this]
          exact ih ys zs h1 h2
        · simp at h2
        · simp at h1
        · simp at h1
        · simp at h1



theorem ofCmp_self (f : F64) : ofCmp f f = .eq := by
  cases f <;> simp [ofCmp, F64.isNan, f64PartialCmp, cmp3_self]

theorem ofCmp_swap (a b : F64) : ofCmp a b = (ofCmp b a).swap := by
  cases a <;> cases b <;>
    simp [ofCmp, F64.isNan, f64PartialCmp, Ordering.swap]
  · exact cmp3_swap _ _

theorem ofCmp_trans {a b c : F64}
    (h1 : ofCmp a b ≠ .gt) (h2 : ofCmp b c ≠ .gt) : ofCmp a c ≠ .gt := by
  cases a <;> cases b <;> cases c <;>
    simp_all [ofCmp, F64.isNan, f64PartialCmp, Ordering.swap]
  exact cmp3_trans h1 h2



theorem indexKeyCmp_self (a : IndexKey) : a.cmp a = .eq := by
  cases a <;>
    first
      | rfl
      | exact cmp3_self _
      | exact lexCmp_self _
      | exact ofCmp_self _

theorem indexKeyCmp_swap (a b : IndexKey) : a.cmp b = (b.cmp a).swap := by
  cases a <;> cases b <;>
    first
      | rfl
      | exact cmp3_swap _ _
      | exact lexCmp_swap _ _
      | exact ofCmp_swap _ _

theorem indexKeyCmp_trans {a b c : IndexKey}
    (h1 : a.cmp b ≠ .gt) (h2 : b.cmp c ≠ .gt) : a.cmp c ≠ .gt := by
  cases a <;> cases b <;> cases c <;>
    simp_all only [IndexKey.cmp] <;>
    first
      | exact cmp3_trans h1 h2
      | exact lexCmp_trans _ _ _ h1 h2
      | exact ofCmp_trans h1 h2
      | simp_all



/-- Claim C7 (amended): the comparison of the B+ tree `IndexKey`
(`index.rs`, both crates) is as the claim states: a total preorder
(reflexive, antisymmetric under `swap`, transitive) that compares tags
as `Null < Bool < Int < Float < String`, uses the natural order inside
bool, int and string, and makes NaN equal to NaN and greater than every
non-NaN float.  The `IndexKey` of `transaction.rs` — the type carried in
transaction buffers and WAL index-change payloads — does NOT share this
order: its derived `Ord` follows the declaration order
`Int < String < Float < Bool < Null`, and its `OrderedFloat` makes NaN
compare Equal to every float. -/
theorem claim_C7_index_key_order :
    (∀ a : IndexKey, a.cmp a = .eq) ∧
    (∀ a b : IndexKey, a.cmp b = (b.cmp a).swap) ∧
    (∀ a b c : IndexKey, a.cmp b ≠ .gt → b.cmp c ≠ .gt → a.cmp c ≠ .gt) ∧
    (∀ b, IndexKey.cmp .null (.bool b) = .lt) ∧
    (∀ b i, IndexKey.cmp (.bool b) (.int i) = .lt) ∧
    (∀ i f, IndexKey.cmp (.int i) (.float f) = .lt) ∧
    (∀ f s, IndexKey.cmp (.float f) (.str s) = .lt) ∧
    (∀ a b : Bool, IndexKey.cmp (.bool a) (.bool b) = cmp3 a b) ∧
    (∀ a b : ℤ, IndexKey.cmp (.int a) (.int b) = cmp3 a b) ∧
    (∀ a b : List Char, IndexKey.cmp (.str a) (.str b) = lexCmp a b) ∧
    (ofCmp .nan .nan = .eq) ∧
    (∀ f : F64, f.isNan = false → ofCmp .nan f = .gt ∧ ofCmp f .nan = .lt) ∧
    (∀ i, TxIndexKey.cmp .null (.int i) = .gt) ∧
    (∀ b s, TxIndexKey.cmp (.bool b) (.str s) = .gt) ∧
    (∀ f : F64, txOfCmp .nan f = .eq) := by
  refine ⟨indexKeyCmp_self, indexKeyCmp_swap, fun a b c => indexKeyCmp_trans,
    fun b => rfl, fun b i => rfl, fun i f => rfl, fun f s => rfl,
    fun a b => rfl, fun a b => rfl, fun a b => rfl, rfl,
    fun f hf => ?_, fun i => rfl, fun b s => rfl, fun f => ?_⟩
  · cases f <;> simp_all [ofCmp, F64.isNan, f64PartialCmp]
  · cases f <;> rfl

/-- Claim C7 (witness): the transitivity and the NaN clauses of the
amended statement discharged at concrete keys. -/
theorem claim_C7_witness :
    IndexKey.cmp (.int 3) (.int 7) ≠ Ordering.gt ∧
    ofCmp .nan (.val 1) = .gt ∧ ofCmp (.val 1) .nan = .lt := by
  have h := claim_C7_index_key_order
  exact ⟨h.2.2.1 (.int 3) (.int 5) (.int 7) (by decide) (by decide),
    h.2.2.2.2.2.2.2.2.2.2.2.1 (.val 1) (by decide)⟩

/-- Claim C7 (counterexample): on the `transaction.rs` `IndexKey` the
claimed order fails at concrete inputs: `Null` compares Greater (not
Less) than `Int 0`, and its float wrapper compares NaN Equal (not
Greater) to the non-NaN value 1. -/
theorem claim_C7_counterexample :
    TxIndexKey.cmp .null (.int 0) = .gt ∧ Ordering.gt ≠ Ordering.lt ∧
    txOfCmp .nan (.val 1) = .eq ∧ Ordering.eq ≠ Ordering.gt := by
  refine ⟨by decide, by decide, by decide, by decide⟩

end MongoLite
